import Mathlib

/-!
# Shallow embedding of `HTTP-reply-test-server.py`

This file models the test-case resolution and connection-serving logic of the
HTTP reply test server as executable Lean functions, and proves properties of
that model.

Modelling conventions:
* Byte payloads are `List Nat`; `strBytes` turns an ASCII string literal into
  its byte list (matching Python `b"..."` literals).
* The filesystem is a structure of partial maps: `zips` (a path either holds a
  zip that opens to a list of `(entry name, content)` pairs, or exists but is
  corrupt, i.e. `zipfile.BadZipFile`), `dirs` (directory listings), and
  `files` (plain file reads).
* The nondeterminism of the socket accept loop is an explicit input stream of
  `AcceptEv` events: a poll timeout, a cancellation (KeyboardInterrupt), an
  accept failure, or an accepted connection whose recv/send/close operations
  each either succeed or fail.
* The observable behaviour is a `List Out` trace: log lines that the claims
  talk about, plus `sent` / `sent_data` events recording the exact bytes
  written to an accepted connection.
* Python's `int(str)` is modelled by `pyIntParse` (optional surrounding
  whitespace, optional sign, ASCII digits with single underscores between
  digits); `os.path.basename` by `basename`; Python's stable `list.sort` /
  `sorted` by the stable insertion sort `pysort`.
-/

namespace HRTS

/-- Python whitespace characters stripped by `int(str)` (ASCII subset). -/
def isPySpace (c : Char) : Bool :=
  c == ' ' || c == '\t' || c == '\n' || c == '\r' || c == '\x0b' || c == '\x0c'

/-- Strip leading and trailing Python whitespace. -/
def stripPySpace (l : List Char) : List Char :=
  ((l.dropWhile isPySpace).reverse.dropWhile isPySpace).reverse

def isAsciiDigit (c : Char) : Bool :=
  '0' ≤ c && c ≤ '9'

def digitVal (c : Char) : Nat :=
  c.toNat - '0'.toNat

/-- Digits after the first one: Python allows a single `_` between digits. -/
def pyDigitsAux : Nat → List Char → Option Nat
  | acc, [] => some acc
  | acc, '_' :: c :: rest =>
      if isAsciiDigit c then pyDigitsAux (10 * acc + digitVal c) rest else none
  | acc, c :: rest =>
      if isAsciiDigit c then pyDigitsAux (10 * acc + digitVal c) rest else none

/-- A nonempty digit run with optional single underscores between digits. -/
def pyDigits : List Char → Option Nat
  | [] => none
  | c :: rest => if isAsciiDigit c then pyDigitsAux (digitVal c) rest else none

/-- Python `int(s)` on ASCII strings: optional surrounding whitespace, an
optional sign, then digits with underscore separators. `none` models a raised
`ValueError`. -/
def pyIntParse (s : String) : Option Int :=
  match stripPySpace s.toList with
  | '+' :: rest => (pyDigits rest).map (fun n => (n : Int))
  | '-' :: rest => (pyDigits rest).map (fun n => -(n : Int))
  | l => (pyDigits l).map (fun n => (n : Int))

/-- `os.path.basename` (POSIX): the part after the last `/`. -/
def basename (s : String) : String :=
  String.mk ((s.toList.reverse.takeWhile (fun c => c != '/')).reverse)

/-- ASCII bytes / code points of a string literal (Python `b"..."`; also what
Python compares strings by). -/
def strBytes (s : String) : List Nat :=
  s.toList.map Char.toNat

/-- Lexicographic strict comparison of code-point lists: Python `str <`. -/
def natListLt : List Nat → List Nat → Bool
  | _, [] => false
  | [], _ :: _ => true
  | a :: as, b :: bs =>
      if a < b then true else if b < a then false else natListLt as bs

/-- Python `str <` by code points. -/
def pyStrLt (a b : String) : Bool :=
  natListLt (strBytes a) (strBytes b)

/-- Python `str <=` (total order: `a <= b` iff not `b < a`). -/
def pyStrLe (a b : String) : Bool :=
  !(pyStrLt b a)

/-- Insert into a sorted list, after any element it does not strictly precede.
`le a b = true` means `a` may stay before `b`. -/
def insertSorted (le : α → α → Bool) (a : α) : List α → List α
  | [] => [a]
  | b :: bs => if le a b then a :: b :: bs else b :: insertSorted le a bs

/-- Stable sort (matches Python's stable `list.sort` for a total preorder). -/
def pysort (le : α → α → Bool) (l : List α) : List α :=
  l.foldr (insertSorted le) []

/-- Server configuration; field names and defaults follow
`HTTPReplyTestServer.__init__` (`sys.maxsize` on 64-bit CPython). -/
structure Config where
  port : Int := 8000
  close_delay : Int := 0
  start_index : Int := 0
  stop_index : Int := 9223372036854775807
  test_case_dir : String := "testcases"
  single_file : Option String := none
  zip_file : Option String := none
deriving DecidableEq

/-- A path that exists as a zip candidate either opens to a list of
`(entry name, contents)` pairs in archive order, or raises `BadZipFile`. -/
inductive ZipState where
  | corrupt
  | valid (entries : List (String × List Nat))
deriving DecidableEq

/-- The filesystem visible to the server. `none` means the path is absent. -/
structure FS where
  zips : String → Option ZipState
  dirs : String → Option (List (String × List Nat))
  files : String → Option (List Nat)

/-- Python truthiness of an optional string (`if self.single_file:`):
`None` and `""` are falsy. -/
def truthy : Option String → Bool
  | none => false
  | some s => s != ""

/-- `self.start_index <= index <= self.stop_index`. -/
def inRange (cfg : Config) (i : Int) : Bool :=
  decide (cfg.start_index ≤ i) && decide (i ≤ cfg.stop_index)

/-- Zip branch filter (`parse_test_cases` lines 213-224): keep entries with a
nonempty base name that parses as an in-range integer, as `(index, name)`. -/
def zip_filter (cfg : Config) (entries : List (String × List Nat)) :
    List (Int × String) :=
  entries.filterMap fun e =>
    let b := basename e.1
    if b == "" then none
    else
      match pyIntParse b with
      | some i => if inRange cfg i then some (i, e.1) else none
      | none => none

/-- Python tuple `<=` on `(int, str)` pairs, used by `test_cases.sort()`. -/
def tupLe (a b : Int × String) : Bool :=
  decide (a.1 < b.1) || (decide (a.1 = b.1) && pyStrLe a.2 b.2)

/-- The zip test-case list after `test_cases.sort()`. -/
def zip_sorted (cfg : Config) (entries : List (String × List Nat)) :
    List (Int × String) :=
  pysort tupLe (zip_filter cfg entries)

/-- `zip_ref.open(name)`: CPython's `NameToInfo` dict maps a duplicated entry
name to the last entry carrying it. -/
def lookupLast (es : List (String × List Nat)) (n : String) : Option (List Nat) :=
  match es with
  | [] => none
  | e :: rest =>
      match lookupLast rest n with
      | some d => some d
      | none => if e.1 == n then some e.2 else none

/-- The resolved `(index, payload)` sequence of the zip branch. -/
def zip_resolve (cfg : Config) (entries : List (String × List Nat)) :
    List (Int × List Nat) :=
  (zip_sorted cfg entries).filterMap fun p =>
    (lookupLast entries p.2).map fun d => (p.1, d)

/-- Ordering of `sorted(test_case_path.iterdir())`: lexicographic by name. -/
def nameLe (a b : String × List Nat) : Bool :=
  pyStrLe a.1 b.1

/-- Directory branch selector (`parse_test_cases` lines 266-272). -/
def dir_select (cfg : Config) (e : String × List Nat) : Option (Int × List Nat) :=
  match pyIntParse e.1 with
  | some i => if inRange cfg i then some (i, e.2) else none
  | none => none

/-- The resolved `(index, payload)` sequence of the directory branch: the
listing is iterated in name order and filtered; it is never re-sorted by
index. -/
def dir_resolve (cfg : Config) (listing : List (String × List Nat)) :
    List (Int × List Nat) :=
  (pysort nameLe listing).filterMap (dir_select cfg)

/-- One event of the accept loop, as observed by `accept`/`recv`/`sendall`/
`close` on a connection. -/
inductive AcceptEv where
  | timeout
  | cancel
  | accept_err
  | conn (recv_ok send_ok close_ok : Bool)
deriving DecidableEq

/-- Observable trace items: log lines the claims mention, and the bytes
written to connections. -/
inductive Out where
  | zip_open (path : String)
  | warn_bad_zip (path : String)
  | err_read_zip (path : String)
  | no_zip_cases
  | warn_no_dir
  | err_file (path : String)
  | no_cases_found
  | sent (index : Int) (data : List Nat)
  | sent_data (data : List Nat)
  | log_recv_err
  | log_send_err
  | log_close_err
  | log_loop_err
  | shutdown
deriving DecidableEq

/-- How `inject` gave control back: `returned` (Python `return`), `canceled`
(`sys.exit` on KeyboardInterrupt), or `starved` (the finite event stream ran
out while still waiting — end of observation). -/
inductive InjStop where
  | returned
  | canceled
  | starved
deriving DecidableEq

/-- `HTTPReplyTestServer.inject` (lines 69-129): loop on accept events until a
connection is served or the loop is abandoned. On a recv failure the socket is
closed and the loop keeps waiting (if that close also fails, the outer generic
handler logs and returns). On a non-timeout accept failure the generic handler
logs and returns without sending. On success the payload is sent (a send
failure is only logged), then the socket is closed (a close failure is only
logged) and `inject` returns. -/
def inject (index : Int) (data : List Nat) :
    List AcceptEv → List Out × List AcceptEv × InjStop
  | [] => ([], [], .starved)
  | .timeout :: r => inject index data r
  | .cancel :: r => ([.shutdown], r, .canceled)
  | .accept_err :: r => ([.log_loop_err], r, .returned)
  | .conn false _ close_ok :: r =>
      if close_ok then
        let k := inject index data r
        (.log_recv_err :: k.1, k.2.1, k.2.2)
      else ([.log_recv_err, .log_loop_err], r, .returned)
  | .conn true send_ok close_ok :: r =>
      ((if send_ok then [.sent index data] else [.log_send_err]) ++
        (if close_ok then [] else [.log_close_err]), r, .returned)

/-- The per-source injection loop (`for index, file_path in test_cases`):
inject each resolved case in turn; the `Bool` is `true` when the loop ran to
completion (so control flows on to `serve_forever`). -/
def inject_seq :
    List (Int × List Nat) → List AcceptEv → List Out × List AcceptEv × Bool
  | [], evs => ([], evs, true)
  | tc :: tcs, evs =>
      let k := inject tc.1 tc.2 evs
      match k.2.2 with
      | .returned =>
          let k2 := inject_seq tcs k.2.1
          (k.1 ++ k2.1, k2.2.1, k2.2.2)
      | _ => (k.1, k.2.1, false)

/-- `parse_single_file` (lines 131-140): read the file and inject it as test
case 0; a read failure is only logged. -/
def parse_single_file (cfg : Config) (fs : FS) (evs : List AcceptEv) :
    List Out × List AcceptEv × Bool :=
  match cfg.single_file with
  | some f =>
      match fs.files f with
      | some data =>
          let k := inject 0 data evs
          (k.1, k.2.1, k.2.2 == .returned)
      | none => ([.err_file f], evs, true)
  | none => ([], evs, true)

/-- The zip path chosen by `parse_test_cases` (lines 195-204): the explicit
`zip_file` if truthy, else the auto-detected `<test_case_dir>.zip` if that
path exists. -/
def chosen_zip (cfg : Config) (fs : FS) : Option String :=
  if truthy cfg.zip_file then cfg.zip_file
  else
    let auto := cfg.test_case_dir ++ ".zip"
    if (fs.zips auto).isSome then some auto else none

/-- Directory fallback of `parse_test_cases` (lines 255-287). -/
def dir_part (cfg : Config) (fs : FS) (evs : List AcceptEv) :
    List Out × List AcceptEv × Bool :=
  match fs.dirs cfg.test_case_dir with
  | none => ([.warn_no_dir], evs, true)
  | some listing => inject_seq (dir_resolve cfg listing) evs

/-- `parse_test_cases` (lines 189-287). A valid zip that yields no in-range
cases logs and returns without touching the directory; a corrupt zip logs a
warning and falls back to the directory; a zip path that cannot be opened at
all logs an error and falls back to the directory. -/
def parse_test_cases (cfg : Config) (fs : FS) (evs : List AcceptEv) :
    List Out × List AcceptEv × Bool :=
  if truthy cfg.single_file then parse_single_file cfg fs evs
  else
    match chosen_zip cfg fs with
    | some p =>
        match fs.zips p with
        | some (.valid entries) =>
            let tcs := zip_resolve cfg entries
            if tcs.isEmpty then ([.zip_open p, .no_zip_cases], evs, true)
            else
              let k := inject_seq tcs evs
              (.zip_open p :: k.1, k.2.1, k.2.2)
        | some .corrupt =>
            let k := dir_part cfg fs evs
            (.zip_open p :: .warn_bad_zip p :: k.1, k.2.1, k.2.2)
        | none =>
            let k := dir_part cfg fs evs
            (.zip_open p :: .err_read_zip p :: k.1, k.2.1, k.2.2)
    | none => dir_part cfg fs evs

/-- The canned response of `serve_forever` (line 322). -/
def default_response : List Nat :=
  strBytes "HTTP/1.1 200 OK\r\nContent-Type: text/plain\r\nContent-Length: 13\r\n\r\nHello, World!"

/-- `serve_forever` (lines 294-344): accept, log, send the default response,
close — forever; a recv failure skips the send, any failure is only logged,
cancellation exits. -/
def serve_forever : List AcceptEv → List Out
  | [] => []
  | .timeout :: r => serve_forever r
  | .cancel :: _ => [.shutdown]
  | .accept_err :: r => .log_loop_err :: serve_forever r
  | .conn false _ _ :: r => .log_recv_err :: serve_forever r
  | .conn true send_ok close_ok :: r =>
      ((if send_ok then [.sent_data default_response] else [.log_send_err]) ++
        (if close_ok then [] else [.log_close_err])) ++ serve_forever r

/-- The zip side of the `has_test_cases` scan in `run` (lines 366-378). -/
def zip_has_case (cfg : Config) (entries : List (String × List Nat)) : Bool :=
  entries.any fun e =>
    let b := basename e.1
    b != "" &&
      match pyIntParse b with
      | some i => inRange cfg i
      | none => false

/-- The directory side of the `has_test_cases` scan in `run` (lines 381-390). -/
def dir_has_case (cfg : Config) (listing : List (String × List Nat)) : Bool :=
  listing.any fun e =>
    match pyIntParse e.1 with
    | some i => inRange cfg i
    | none => false

/-- `zip_path = self.zip_file or f"{self.test_case_dir}.zip"` (line 361). -/
def run_zip_path (cfg : Config) : String :=
  match cfg.zip_file with
  | some p => if p != "" then p else cfg.test_case_dir ++ ".zip"
  | none => cfg.test_case_dir ++ ".zip"

/-- The `has_test_cases` pre-scan of `run` (lines 353-390): any in-range case
in the (readable) zip, else any in-range case in the directory; with
`single_file` set it is unconditionally true. -/
def has_test_cases (cfg : Config) (fs : FS) : Bool :=
  if truthy cfg.single_file then true
  else
    let fromZip :=
      match fs.zips (run_zip_path cfg) with
      | some (.valid entries) => zip_has_case cfg entries
      | _ => false
    fromZip ||
      match fs.dirs cfg.test_case_dir with
      | some listing => dir_has_case cfg listing
      | none => false

/-- `run` (lines 346-411): with a truthy `single_file`, inject the file and
stop (the `not has_test_cases or not self.single_file` guard is false, so
`serve_forever` is skipped); otherwise parse and inject test cases if the
pre-scan found any, then serve the default response until cancelled. -/
def run_server (cfg : Config) (fs : FS) (evs : List AcceptEv) : List Out :=
  if truthy cfg.single_file then (parse_single_file cfg fs evs).1
  else
    let k :=
      if has_test_cases cfg fs then parse_test_cases cfg fs evs
      else ([.no_cases_found], evs, true)
    k.1 ++ (if k.2.2 then serve_forever k.2.1 else [])

/-- Parsed command-line arguments with their `argparse` defaults
(`main`, lines 417-433). -/
structure Args where
  port : Int := 8000
  closedelay : Int := 0
  single : Option Int := none
  start : Int := 0
  stop : Int := 9223372036854775807
  file : Option String := none
  testdir : String := "testcases"
  zip : Option String := none
deriving DecidableEq

/-- The configuration `main` builds from the arguments (lines 437-451):
`-single N` sets both bounds to `N` and discards `-start`/`-stop`. -/
def config_of_args (a : Args) : Config :=
  { port := a.port
    close_delay := a.closedelay
    start_index := match a.single with | some n => n | none => a.start
    stop_index := match a.single with | some n => n | none => a.stop
    test_case_dir := a.testdir
    single_file := a.file
    zip_file := a.zip }

/-! ## Order lemmas for the comparison functions -/

theorem natListLt_asymm : ∀ {a b : List Nat},
    natListLt a b = true → natListLt b a = false
  | [], [], h => by simp [natListLt] at h
  | [], _ :: _, _ => by simp [natListLt]
  | _ :: _, [], h => by simp [natListLt] at h
  | a :: as, b :: bs, h => by
      simp only [natListLt] at h ⊢
      rcases Nat.lt_trichotomy a b with h1 | h1 | h1
      · rw [if_neg (by omega), if_pos h1]
      · subst h1
        rw [if_neg (by omega), if_neg (by omega)] at h ⊢
        exact natListLt_asymm h
      · rw [if_neg (by omega), if_pos h1] at h
        simp at h

theorem natListLt_trans : ∀ {a b c : List Nat},
    natListLt a b = true → natListLt b c = true → natListLt a c = true
  | _, _, [], _, h2 => by simp [natListLt] at h2
  | _, [], _ :: _, h1, _ => by simp [natListLt] at h1
  | [], _ :: _, _ :: _, _, _ => by simp [natListLt]
  | a :: as, b :: bs, c :: cs, h1, h2 => by
      simp only [natListLt] at h1 h2 ⊢
      rcases Nat.lt_trichotomy a b with hab | hab | hab
      · rcases Nat.lt_trichotomy b c with hbc | hbc | hbc
        · rw [if_pos (by omega)]
        · subst hbc
          rw [if_pos hab]
        · rw [if_neg (by omega), if_pos hbc] at h2
          simp at h2
      · subst hab
        rw [if_neg (by omega), if_neg (by omega)] at h1
        rcases Nat.lt_trichotomy a c with hac | hac | hac
        · rw [if_pos hac]
        · subst hac
          rw [if_neg (by omega), if_neg (by omega)] at h2 ⊢
          exact natListLt_trans h1 h2
        · rw [if_neg (by omega), if_pos hac] at h2
          simp at h2
      · rw [if_neg (by omega), if_pos hab] at h1
        simp at h1

theorem natListLt_connex : ∀ {a b : List Nat},
    natListLt a b = false → natListLt b a = false → a = b
  | [], [], _, _ => rfl
  | [], _ :: _, h1, _ => by simp [natListLt] at h1
  | _ :: _, [], _, h2 => by simp [natListLt] at h2
  | a :: as, b :: bs, h1, h2 => by
      simp only [natListLt] at h1 h2
      rcases Nat.lt_trichotomy a b with hab | hab | hab
      · rw [if_pos hab] at h1
        simp at h1
      · subst hab
        rw [if_neg (by omega), if_neg (by omega)] at h1 h2
        exact congrArg (a :: ·) (natListLt_connex h1 h2)
      · rw [if_pos hab] at h2
        simp at h2

theorem strBytes_inj {a b : String} (h : strBytes a = strBytes b) : a = b := by
  have hc : Function.Injective Char.toNat := fun x y hxy =>
    Char.eq_of_val_eq (UInt32.toNat.inj hxy)
  have hl : a.toList = b.toList := List.map_injective_iff.mpr hc h
  cases a
  cases b
  exact congrArg String.mk (by simpa [String.toList] using hl)

theorem pyStrLe_total (a b : String) : pyStrLe a b = true ∨ pyStrLe b a = true := by
  cases h1 : natListLt (strBytes b) (strBytes a) with
  | true =>
      right
      simp [pyStrLe, pyStrLt, natListLt_asymm h1]
  | false =>
      left
      simp [pyStrLe, pyStrLt, h1]

theorem pyStrLe_trans {a b c : String} (h1 : pyStrLe a b = true)
    (h2 : pyStrLe b c = true) : pyStrLe a c = true := by
  simp only [pyStrLe, pyStrLt, Bool.not_eq_true'] at h1 h2 ⊢
  cases hca : natListLt (strBytes c) (strBytes a) with
  | false => rfl
  | true =>
      cases hbc : natListLt (strBytes b) (strBytes c) with
      | true => exact absurd (natListLt_trans hbc hca) (by simp [h1])
      | false =>
          have heq : strBytes b = strBytes c := natListLt_connex hbc h2
          rw [← heq] at hca
          exact absurd hca (by simp [h1])

theorem pyStrLe_antisymm {a b : String} (h1 : pyStrLe a b = true)
    (h2 : pyStrLe b a = true) : a = b := by
  simp only [pyStrLe, pyStrLt, Bool.not_eq_true'] at h1 h2
  exact strBytes_inj (natListLt_connex h2 h1)

theorem nameLe_total (a b : String × List Nat) :
    nameLe a b = true ∨ nameLe b a = true :=
  pyStrLe_total a.1 b.1

theorem nameLe_trans {a b c : String × List Nat} (h1 : nameLe a b = true)
    (h2 : nameLe b c = true) : nameLe a c = true :=
  pyStrLe_trans h1 h2

theorem tupLe_total (a b : Int × String) : tupLe a b = true ∨ tupLe b a = true := by
  simp only [tupLe, Bool.or_eq_true, Bool.and_eq_true, decide_eq_true_eq]
  rcases lt_trichotomy a.1 b.1 with h | h | h
  · exact Or.inl (Or.inl h)
  · rcases pyStrLe_total a.2 b.2 with hs | hs
    · exact Or.inl (Or.inr ⟨h, hs⟩)
    · exact Or.inr (Or.inr ⟨h.symm, hs⟩)
  · exact Or.inr (Or.inl h)

theorem tupLe_trans {a b c : Int × String} (h1 : tupLe a b = true)
    (h2 : tupLe b c = true) : tupLe a c = true := by
  simp only [tupLe, Bool.or_eq_true, Bool.and_eq_true, decide_eq_true_eq] at h1 h2 ⊢
  rcases h1 with h1 | ⟨h1e, h1s⟩ <;> rcases h2 with h2 | ⟨h2e, h2s⟩
  · exact Or.inl (h1.trans h2)
  · exact Or.inl (h2e ▸ h1)
  · exact Or.inl (h1e ▸ h2)
  · exact Or.inr ⟨h1e.trans h2e, pyStrLe_trans h1s h2s⟩

theorem tupLe_fst_le {a b : Int × String} (h : tupLe a b = true) : a.1 ≤ b.1 := by
  simp only [tupLe, Bool.or_eq_true, Bool.and_eq_true, decide_eq_true_eq] at h
  rcases h with h | ⟨h, _⟩ <;> omega

/-! ## Lemmas about the stable sort `pysort` -/

theorem mem_insertSorted {le : α → α → Bool} {a x : α} : ∀ {l : List α},
    (x ∈ insertSorted le a l ↔ x = a ∨ x ∈ l)
  | [] => by simp [insertSorted]
  | b :: bs => by
      simp only [insertSorted]
      split
      · simp [List.mem_cons]
      · simp only [List.mem_cons, mem_insertSorted (l := bs)]
        tauto

theorem insertSorted_perm (le : α → α → Bool) (a : α) :
    ∀ (l : List α), List.Perm (insertSorted le a l) (a :: l)
  | [] => List.Perm.refl _
  | b :: bs => by
      simp only [insertSorted]
      split
      · exact List.Perm.refl _
      · exact ((insertSorted_perm le a bs).cons b).trans (List.Perm.swap a b bs)

theorem pysort_perm (le : α → α → Bool) :
    ∀ (l : List α), List.Perm (pysort le l) l
  | [] => List.Perm.refl _
  | a :: as =>
      (insertSorted_perm le a (pysort le as)).trans ((pysort_perm le as).cons a)

theorem mem_pysort {le : α → α → Bool} {x : α} {l : List α} :
    x ∈ pysort le l ↔ x ∈ l :=
  (pysort_perm le l).mem_iff

theorem pairwise_insertSorted {le : α → α → Bool}
    (htot : ∀ x y, le x y = true ∨ le y x = true)
    (htrans : ∀ {x y z}, le x y = true → le y z = true → le x z = true)
    (a : α) :
    ∀ {l : List α}, l.Pairwise (fun x y => le x y = true) →
      (insertSorted le a l).Pairwise (fun x y => le x y = true)
  | [], _ => by simp [insertSorted]
  | b :: bs, h => by
      rw [List.pairwise_cons] at h
      obtain ⟨hb, hbs⟩ := h
      simp only [insertSorted]
      split
      · rename_i hab
        rw [List.pairwise_cons]
        refine ⟨?_, List.pairwise_cons.mpr ⟨hb, hbs⟩⟩
        intro y hy
        rcases List.mem_cons.mp hy with rfl | hy
        · exact hab
        · exact htrans hab (hb y hy)
      · rename_i hab
        have hba : le b a = true := by
          rcases htot a b with h | h
          · exact absurd h hab
          · exact h
        rw [List.pairwise_cons]
        refine ⟨?_, pairwise_insertSorted htot htrans a hbs⟩
        intro y hy
        rcases mem_insertSorted.mp hy with rfl | hy
        · exact hba
        · exact hb y hy

theorem pairwise_pysort {le : α → α → Bool}
    (htot : ∀ x y, le x y = true ∨ le y x = true)
    (htrans : ∀ {x y z}, le x y = true → le y z = true → le x z = true) :
    ∀ (l : List α), (pysort le l).Pairwise (fun x y => le x y = true)
  | [] => List.Pairwise.nil
  | a :: as => pairwise_insertSorted htot htrans a (pairwise_pysort htot htrans as)

/-- Two sorted lists that are permutations of each other are equal, provided
the order is antisymmetric on the elements involved. -/
theorem sorted_perm_eq {r : α → α → Prop} :
    ∀ {l₁ l₂ : List α}, l₁.Perm l₂ →
      (∀ a ∈ l₁, ∀ b ∈ l₁, r a b → r b a → a = b) →
      l₁.Pairwise r → l₂.Pairwise r → l₁ = l₂
  | [], l₂, hp, _, _, _ => (List.Perm.nil_eq hp).symm ▸ rfl
  | a :: t₁, [], hp, _, _, _ => absurd hp (by simp)
  | a :: t₁, b :: t₂, hp, hanti, hs₁, hs₂ => by
      rw [List.pairwise_cons] at hs₁ hs₂
      have hab : a = b := by
        by_contra hne
        have hbmem : b ∈ a :: t₁ := hp.mem_iff.mpr (List.mem_cons_self b t₂)
        have hamem : a ∈ b :: t₂ := hp.mem_iff.mp (List.mem_cons_self a t₁)
        have hbt₁ : b ∈ t₁ := by
          rcases List.mem_cons.mp hbmem with h | h
          · exact absurd h.symm hne
          · exact h
        have hat₂ : a ∈ t₂ := by
          rcases List.mem_cons.mp hamem with h | h
          · exact absurd h hne
          · exact h
        exact hne (hanti a (List.mem_cons_self a t₁) b hbmem
          (hs₁.1 b hbt₁) (hs₂.1 a hat₂))
      subst hab
      have htail : t₁.Perm t₂ := hp.cons_inv
      have : t₁ = t₂ := by
        refine sorted_perm_eq htail ?_ hs₁.2 hs₂.2
        intro x hx y hy
        exact hanti x (List.mem_cons_of_mem a hx) y (List.mem_cons_of_mem a hy)
      rw [this]

/-! ## Lemmas about the resolution pipeline -/

theorem pyIntParse_empty : pyIntParse "" = none := rfl

theorem lookupLast_isSome {es : List (String × List Nat)} {n : String}
    (h : ∃ e ∈ es, e.1 = n) : ∃ d, lookupLast es n = some d := by
  induction es with
  | nil => simp at h
  | cons e rest ih =>
      simp only [lookupLast]
      cases hrec : lookupLast rest n with
      | some d => exact ⟨d, rfl⟩
      | none =>
          obtain ⟨x, hx, hxn⟩ := h
          rcases List.mem_cons.mp hx with rfl | hx
          · rw [if_pos (by simpa using hxn)]
            exact ⟨x.2, rfl⟩
          · obtain ⟨d, hd⟩ := ih ⟨x, hx, hxn⟩
            rw [hd] at hrec
            cases hrec

theorem mem_zip_filter {cfg : Config} {entries : List (String × List Nat)}
    {i : Int} {n : String} :
    (i, n) ∈ zip_filter cfg entries ↔
      ∃ e ∈ entries, e.1 = n ∧ basename e.1 ≠ "" ∧
        pyIntParse (basename e.1) = some i ∧ inRange cfg i = true := by
  simp only [zip_filter, List.mem_filterMap]
  constructor
  · rintro ⟨e, he, hf⟩
    by_cases hb : basename e.1 == ""
    · rw [if_pos hb] at hf
      cases hf
    · rw [if_neg hb] at hf
      split at hf
      · rename_i j hp
        split at hf
        · rename_i hr
          injection hf with hf
          injection hf with h1 h2
          subst h1
          subst h2
          exact ⟨e, he, rfl, by simpa using hb, hp, hr⟩
        · cases hf
      · cases hf
  · rintro ⟨e, he, hn, hb, hp, hr⟩
    refine ⟨e, he, ?_⟩
    rw [if_neg (by simpa using hb)]
    rw [hp]
    simp only [if_pos hr, hn]

theorem mem_zip_sorted {cfg : Config} {entries : List (String × List Nat)}
    {p : Int × String} :
    p ∈ zip_sorted cfg entries ↔ p ∈ zip_filter cfg entries := by
  simp [zip_sorted, mem_pysort]

theorem zip_sorted_names {cfg : Config} {entries : List (String × List Nat)}
    {p : Int × String} (h : p ∈ zip_sorted cfg entries) :
    ∃ e ∈ entries, e.1 = p.2 := by
  obtain ⟨e, he, hn, -⟩ := mem_zip_filter.mp (mem_zip_sorted.mp h)
  exact ⟨e, he, hn⟩

theorem map_fst_filterMap_lookup (entries : List (String × List Nat)) :
    ∀ (l : List (Int × String)),
      (∀ p ∈ l, ∃ e ∈ entries, e.1 = p.2) →
      (l.filterMap fun p => (lookupLast entries p.2).map fun d => (p.1, d)).map
          Prod.fst =
        l.map Prod.fst
  | [], _ => rfl
  | p :: l, h => by
      obtain ⟨d, hd⟩ := lookupLast_isSome (h p (List.mem_cons_self p l))
      simp only [List.filterMap_cons, hd, Option.map_some', List.map_cons]
      exact congrArg (p.1 :: ·)
        (map_fst_filterMap_lookup entries l
          (fun q hq => h q (List.mem_cons_of_mem p hq)))

/-- The resolved zip indices are exactly the sorted, filtered indices: the
per-entry `zip_ref.open` lookup never drops a case. -/
theorem map_fst_zip_resolve (cfg : Config) (entries : List (String × List Nat)) :
    (zip_resolve cfg entries).map Prod.fst =
      (zip_sorted cfg entries).map Prod.fst :=
  map_fst_filterMap_lookup entries (zip_sorted cfg entries)
    (fun _ hp => zip_sorted_names hp)

theorem mem_dir_resolve {cfg : Config} {listing : List (String × List Nat)}
    {i : Int} {d : List Nat} :
    (i, d) ∈ dir_resolve cfg listing ↔
      ∃ e ∈ listing, pyIntParse e.1 = some i ∧ inRange cfg i = true ∧
        e.2 = d := by
  simp only [dir_resolve, List.mem_filterMap, mem_pysort]
  constructor
  · rintro ⟨e, he, hf⟩
    simp only [dir_select] at hf
    split at hf
    · rename_i j hp
      split at hf
      · rename_i hr
        injection hf with hf
        injection hf with h1 h2
        subst h1
        subst h2
        exact ⟨e, he, hp, hr, rfl⟩
      · cases hf
    · cases hf
  · rintro ⟨e, he, hp, hr, hd⟩
    refine ⟨e, he, ?_⟩
    simp only [dir_select, hp, if_pos hr, hd]

theorem mem_map_fst {β : Type} {l : List (Int × β)} {i : Int} :
    i ∈ l.map Prod.fst ↔ ∃ b, (i, b) ∈ l := by
  constructor
  · intro h
    obtain ⟨⟨a, b⟩, hp, he⟩ := List.mem_map.mp h
    cases he
    exact ⟨b, hp⟩
  · rintro ⟨b, hb⟩
    exact List.mem_map.mpr ⟨(i, b), hb, rfl⟩

/-! ## Concrete scenarios used by counterexamples and witnesses -/

/-- Range 0..3; a valid `testcases.zip` whose only entry has index 5 (out of
range); a `testcases` directory whose only entry has index 1 (in range). -/
def c1cfg : Config := { stop_index := 3 }

def c1fs : FS :=
  { zips := fun p =>
      if p = "testcases.zip" then some (ZipState.valid [("5", [90])]) else none
    dirs := fun p => if p = "testcases" then some [("1", [66])] else none
    files := fun _ => none }

def c1bcfg : Config := { zip_file := some "explicit.zip" }

/-- A directory with files named `0`, `1`, `2`, `10`. -/
def c2dir : List (String × List Nat) :=
  [("0", [65]), ("1", [66]), ("2", [67]), ("10", [68])]

def c2cfg : Config := {}

def c2fs : FS :=
  { zips := fun _ => none
    dirs := fun p => if p = "testcases" then some c2dir else none
    files := fun _ => none }

/-- `-file foo.bin` where `foo.bin` holds bytes `[88, 89]`. -/
def c4cfg : Config := { single_file := some "foo.bin" }

def c4fs : FS :=
  { zips := fun _ => none
    dirs := fun _ => none
    files := fun p => if p = "foo.bin" then some [88, 89] else none }

/-- `testcases.zip` exists but is corrupt; the directory has one case. -/
def c6fs : FS :=
  { zips := fun p => if p = "testcases.zip" then some ZipState.corrupt else none
    dirs := fun p => if p = "testcases" then some [("1", [66])] else none
    files := fun _ => none }

/-! ## Claims -/

/-- C7: the default response written by `serve_forever` to each successfully
accepted connection is exactly the literal bytes of status line
`HTTP/1.1 200 OK`, headers `Content-Type: text/plain` and
`Content-Length: 13`, a blank line, and the 13-byte body `Hello, World!`,
ending in `!` (0x21), i.e. with no trailing newline. -/
theorem c7_default_response :
    (∀ r, serve_forever (AcceptEv.conn true true true :: r) =
        Out.sent_data default_response :: serve_forever r) ∧
    default_response =
      strBytes "HTTP/1.1 200 OK" ++ [13, 10] ++
        strBytes "Content-Type: text/plain" ++ [13, 10] ++
        strBytes "Content-Length: 13" ++ [13, 10] ++ [13, 10] ++
        strBytes "Hello, World!" ∧
    (strBytes "Hello, World!").length = 13 ∧
    default_response.getLast? = some 33 :=
  ⟨fun _ => rfl, by decide, by decide, by decide⟩

/-- C5: `-single N` yields exactly the configuration of `-start N -stop N`,
the values of `-start`/`-stop` are ignored when `-single` is given, and the
whole observable server behaviour coincides for the two spellings. -/
theorem c5_single_override :
    (∀ (a : Args) (n : Int),
      config_of_args { a with single := some n } =
        config_of_args { a with single := none, start := n, stop := n }) ∧
    (∀ (a : Args) (n s₁ s₂ t₁ t₂ : Int),
      config_of_args { a with single := some n, start := s₁, stop := t₁ } =
        config_of_args { a with single := some n, start := s₂, stop := t₂ }) ∧
    (∀ (a : Args) (n : Int) (fs : FS) (evs : List AcceptEv),
      run_server (config_of_args { a with single := some n }) fs evs =
        run_server (config_of_args { a with single := none, start := n, stop := n })
          fs evs) :=
  ⟨fun _ _ => rfl, fun _ _ _ _ _ _ => rfl, fun _ _ _ _ => rfl⟩

/-- C9: filenames are accepted by Python's `int` parsing, including a leading
sign, surrounding whitespace and underscore digit separators; an entry named
`-3` is selected (with its negative index) once `start_index` is negative.
The directory branch orders these by name, the zip branch by index. -/
theorem c9_python_int_names :
    pyIntParse "-3" = some (-3) ∧
    pyIntParse " 7 " = some 7 ∧
    pyIntParse "1_0" = some 10 ∧
    (dir_resolve { start_index := -10, stop_index := 100 }
        [("-3", [65]), (" 7 ", [66]), ("1_0", [67]), ("x", [68])]).map Prod.fst =
      [7, -3, 10] ∧
    (zip_resolve { start_index := -10, stop_index := 100 }
        [("-3", [65]), (" 7 ", [66]), ("1_0", [67]), ("x", [68])]).map Prod.fst =
      [-3, 7, 10] :=
  ⟨by decide, by decide, by decide, by decide, by decide⟩

/-- C2 counterexample: a directory with files named `0`, `1`, `2`, `10` is
resolved (and injected) in lexicographic filename order `0, 1, 10, 2` — not
in ascending index order `0, 1, 2, 10` as the claim states. -/
theorem c2_counterexample :
    (dir_resolve c2cfg c2dir).map Prod.fst = [0, 1, 10, 2] ∧
    (dir_resolve c2cfg c2dir).map Prod.fst ≠ [0, 1, 2, 10] ∧
    ¬ List.Sorted (· ≤ ·) ((dir_resolve c2cfg c2dir).map Prod.fst) ∧
    run_server c2cfg c2fs (List.replicate 5 (AcceptEv.conn true true true)) =
      [Out.sent 0 [65], Out.sent 1 [66], Out.sent 10 [68], Out.sent 2 [67],
        Out.sent_data default_response] := by
  refine ⟨by decide, by decide, ?_, by decide⟩
  intro h
  rw [(by decide : (dir_resolve c2cfg c2dir).map Prod.fst = [0, 1, 10, 2])] at h
  rcases h with - | ⟨-, h⟩
  rcases h with - | ⟨-, h⟩
  rcases h with - | ⟨h1, -⟩
  have := h1 2 (by simp)
  omega

/-- C2 (amended): zip-sourced sequences are sorted ascending by index for
every ordering of the archive entries, and directory resolution is
order-independent (for duplicate-free listings), but follows lexicographic
filename order, which matches index order only when name order and numeric
order coincide: files `0`, `1`, `2`, `10` resolve as `0, 1, 10, 2`. -/
theorem c2_order :
    (∀ (cfg : Config) (entries : List (String × List Nat)),
      List.Sorted (· ≤ ·) ((zip_resolve cfg entries).map Prod.fst)) ∧
    (∀ (cfg : Config) (l₁ l₂ : List (String × List Nat)),
      l₁.Perm l₂ → (l₁.map Prod.fst).Nodup →
      dir_resolve cfg l₁ = dir_resolve cfg l₂) ∧
    (dir_resolve c2cfg c2dir).map Prod.fst = [0, 1, 10, 2] := by
  refine ⟨?_, ?_, by decide⟩
  · intro cfg entries
    rw [map_fst_zip_resolve]
    have h1 : (zip_sorted cfg entries).Pairwise (fun p q => tupLe p q = true) :=
      pairwise_pysort tupLe_total (fun ha hb => tupLe_trans ha hb) _
    rw [List.Sorted, List.pairwise_map]
    exact h1.imp tupLe_fst_le
  · intro cfg l₁ l₂ hperm hnodup
    have hsort : pysort nameLe l₁ = pysort nameLe l₂ := by
      refine sorted_perm_eq
        ((pysort_perm nameLe l₁).trans (hperm.trans (pysort_perm nameLe l₂).symm))
        ?_ (pairwise_pysort nameLe_total (fun ha hb => nameLe_trans ha hb) l₁)
        (pairwise_pysort nameLe_total (fun ha hb => nameLe_trans ha hb) l₂)
      intro a ha b hb hab hba
      have hkey : a.1 = b.1 := pyStrLe_antisymm hab hba
      exact List.inj_on_of_nodup_map hnodup (mem_pysort.mp ha) (mem_pysort.mp hb)
        hkey
    unfold dir_resolve
    rw [hsort]

/-- C2 witness: directory resolution gives the same result on two orderings
of the same duplicate-free listing. -/
theorem c2_order_witness :
    dir_resolve c2cfg [("1", [66]), ("0", [65])] =
      dir_resolve c2cfg [("0", [65]), ("1", [66])] :=
  c2_order.2.1 c2cfg _ _ (List.Perm.swap ("0", [65]) ("1", [66]) []) (by decide)

/-- C3: for both zip archives and directories, the indices of the resolved
sequence are exactly those integers `i` for which some entry's base filename
parses (by Python `int`) to `i` and `start_index ≤ i ≤ stop_index`;
non-numeric names are merely filtered out. -/
theorem c3_numeric_selection :
    (∀ (cfg : Config) (entries : List (String × List Nat)) (i : Int),
      i ∈ (zip_resolve cfg entries).map Prod.fst ↔
        ((∃ e ∈ entries, pyIntParse (basename e.1) = some i) ∧
          cfg.start_index ≤ i ∧ i ≤ cfg.stop_index)) ∧
    (∀ (cfg : Config) (listing : List (String × List Nat)) (i : Int),
      i ∈ (dir_resolve cfg listing).map Prod.fst ↔
        ((∃ e ∈ listing, pyIntParse e.1 = some i) ∧
          cfg.start_index ≤ i ∧ i ≤ cfg.stop_index)) := by
  constructor
  · intro cfg entries i
    rw [map_fst_zip_resolve, mem_map_fst]
    constructor
    · rintro ⟨n, hp⟩
      obtain ⟨e, he, -, -, hparse, hr⟩ := mem_zip_filter.mp (mem_zip_sorted.mp hp)
      simp only [inRange, Bool.and_eq_true, decide_eq_true_eq] at hr
      exact ⟨⟨e, he, hparse⟩, hr⟩
    · rintro ⟨⟨e, he, hparse⟩, h1, h2⟩
      have hb : basename e.1 ≠ "" := by
        intro hbe
        rw [hbe, pyIntParse_empty] at hparse
        cases hparse
      have hr : inRange cfg i = true := by
        simp only [inRange, Bool.and_eq_true, decide_eq_true_eq]
        exact ⟨h1, h2⟩
      exact ⟨e.1, mem_zip_sorted.mpr
        (mem_zip_filter.mpr ⟨e, he, rfl, hb, hparse, hr⟩)⟩
  · intro cfg listing i
    rw [mem_map_fst]
    constructor
    · rintro ⟨d, hd⟩
      obtain ⟨e, he, hp, hr, -⟩ := mem_dir_resolve.mp hd
      simp only [inRange, Bool.and_eq_true, decide_eq_true_eq] at hr
      exact ⟨⟨e, he, hp⟩, hr⟩
    · rintro ⟨⟨e, he, hp⟩, h1, h2⟩
      refine ⟨e.2, mem_dir_resolve.mpr ⟨e, he, hp, ?_, rfl⟩⟩
      simp only [inRange, Bool.and_eq_true, decide_eq_true_eq]
      exact ⟨h1, h2⟩

/-- C1 counterexample: with a valid auto-detected zip whose only entry is out
of range and a directory holding an in-range case, the run reports "no valid
test cases in zip" and proceeds straight to default serving — the in-range
directory case is never injected, contradicting the claimed fall-through. -/
theorem c1_counterexample :
    run_server c1cfg c1fs [AcceptEv.conn true true true] =
      [Out.zip_open "testcases.zip", Out.no_zip_cases,
        Out.sent_data default_response] ∧
    Out.sent 1 [66] ∉ run_server c1cfg c1fs [AcceptEv.conn true true true] ∧
    dir_has_case c1cfg [("1", [66])] = true :=
  ⟨by decide, by decide, by decide⟩

/-- C1 (amended): the source is chosen by existence, not by yield —
`single_file` if truthy; else the explicit `zip_file` if truthy; else the
auto-detected `<test_dir>.zip` if it exists; else the directory. A chosen zip
falls through to the directory only when it cannot be opened; a valid chosen
zip with zero in-range entries ends resolution with no injections. -/
theorem c1_precedence :
    (∀ (cfg : Config) (fs : FS) (evs : List AcceptEv),
      truthy cfg.single_file = true →
      parse_test_cases cfg fs evs = parse_single_file cfg fs evs) ∧
    (∀ (cfg : Config) (fs : FS),
      truthy cfg.zip_file = true → chosen_zip cfg fs = cfg.zip_file) ∧
    (∀ (cfg : Config) (fs : FS),
      truthy cfg.zip_file = false →
      (fs.zips (cfg.test_case_dir ++ ".zip")).isSome = true →
      chosen_zip cfg fs = some (cfg.test_case_dir ++ ".zip")) ∧
    (∀ (cfg : Config) (fs : FS) (evs : List AcceptEv),
      truthy cfg.single_file = false → chosen_zip cfg fs = none →
      parse_test_cases cfg fs evs = dir_part cfg fs evs) ∧
    (∀ (cfg : Config) (fs : FS) (evs : List AcceptEv) (p : String)
        (entries : List (String × List Nat)),
      truthy cfg.single_file = false → chosen_zip cfg fs = some p →
      fs.zips p = some (ZipState.valid entries) →
      zip_resolve cfg entries = [] →
      parse_test_cases cfg fs evs = ([Out.zip_open p, Out.no_zip_cases], evs, true)) ∧
    (∀ (cfg : Config) (fs : FS) (evs : List AcceptEv) (p : String),
      truthy cfg.single_file = false → chosen_zip cfg fs = some p →
      fs.zips p = none →
      parse_test_cases cfg fs evs =
        (Out.zip_open p :: Out.err_read_zip p :: (dir_part cfg fs evs).1,
          (dir_part cfg fs evs).2.1, (dir_part cfg fs evs).2.2)) := by
  refine ⟨?_, ?_, ?_, ?_, ?_, ?_⟩
  · intro cfg fs evs h1
    simp [parse_test_cases, h1]
  · intro cfg fs h1
    simp [chosen_zip, h1]
  · intro cfg fs h1 h2
    simp [chosen_zip, h1, h2]
  · intro cfg fs evs h1 h2
    simp [parse_test_cases, h1, h2]
  · intro cfg fs evs p entries h1 h2 h3 h4
    simp [parse_test_cases, h1, h2, h3, h4]
  · intro cfg fs evs p h1 h2 h3
    simp [parse_test_cases, h1, h2, h3]

/-- C1 witness: the amended precedence rules applied to concrete scenarios. -/
theorem c1_precedence_witness :
    parse_test_cases c1cfg c1fs [] =
      ([Out.zip_open "testcases.zip", Out.no_zip_cases], [], true) ∧
    chosen_zip c1bcfg c1fs = some "explicit.zip" ∧
    parse_test_cases c4cfg c4fs [] = parse_single_file c4cfg c4fs [] :=
  ⟨c1_precedence.2.2.2.2.1 c1cfg c1fs [] "testcases.zip" [("5", [90])]
      (by decide) (by decide) (by decide) (by decide),
    c1_precedence.2.1 c1bcfg c1fs (by decide),
    c1_precedence.1 c4cfg c4fs [] (by decide)⟩

theorem zip_open_not_mem_inject (q : String) (i : Int) (d : List Nat) :
    ∀ (evs : List AcceptEv), Out.zip_open q ∉ (inject i d evs).1
  | [] => by simp [inject]
  | .timeout :: r => by
      simpa [inject] using zip_open_not_mem_inject q i d r
  | .cancel :: r => by simp [inject]
  | .accept_err :: r => by simp [inject]
  | .conn false s c :: r => by
      cases c
      · simp [inject]
      · simp [inject, zip_open_not_mem_inject q i d r]
  | .conn true s c :: r => by
      cases s <;> cases c <;> simp [inject]

theorem zip_open_not_mem_inject_seq (q : String) :
    ∀ (tcs : List (Int × List Nat)) (evs : List AcceptEv),
      Out.zip_open q ∉ (inject_seq tcs evs).1
  | [], evs => by simp [inject_seq]
  | tc :: tcs, evs => by
      simp only [inject_seq]
      split
      · simp only [List.mem_append, not_or]
        exact ⟨zip_open_not_mem_inject q tc.1 tc.2 evs,
          zip_open_not_mem_inject_seq q tcs _⟩
      · exact zip_open_not_mem_inject q tc.1 tc.2 evs

theorem zip_open_not_mem_dir_part (q : String) (cfg : Config) (fs : FS)
    (evs : List AcceptEv) : Out.zip_open q ∉ (dir_part cfg fs evs).1 := by
  unfold dir_part
  cases fs.dirs cfg.test_case_dir with
  | none => simp
  | some listing => exact zip_open_not_mem_inject_seq q _ evs

/-- C6: if the chosen zip (explicit or auto-detected) exists but is corrupt,
`parse_test_cases` logs a warning and continues with directory resolution,
and the zip is opened exactly once in the whole resolution (never retried). -/
theorem c6_corrupt_zip_fallback :
    ∀ (cfg : Config) (fs : FS) (evs : List AcceptEv) (p : String),
      truthy cfg.single_file = false → chosen_zip cfg fs = some p →
      fs.zips p = some ZipState.corrupt →
      parse_test_cases cfg fs evs =
        (Out.zip_open p :: Out.warn_bad_zip p :: (dir_part cfg fs evs).1,
          (dir_part cfg fs evs).2.1, (dir_part cfg fs evs).2.2) ∧
      (parse_test_cases cfg fs evs).1.count (Out.zip_open p) = 1 := by
  intro cfg fs evs p h1 h2 h3
  have heq : parse_test_cases cfg fs evs =
      (Out.zip_open p :: Out.warn_bad_zip p :: (dir_part cfg fs evs).1,
        (dir_part cfg fs evs).2.1, (dir_part cfg fs evs).2.2) := by
    simp [parse_test_cases, h1, h2, h3]
  refine ⟨heq, ?_⟩
  rw [heq]
  simp [List.count_cons, beq_iff_eq,
    List.count_eq_zero.mpr (zip_open_not_mem_dir_part p cfg fs evs)]

/-- C6 witness: the corrupt-zip fallback on a concrete filesystem. -/
theorem c6_corrupt_zip_fallback_witness :
    parse_test_cases {} c6fs [AcceptEv.conn true true true] =
      (Out.zip_open "testcases.zip" :: Out.warn_bad_zip "testcases.zip" ::
        (dir_part {} c6fs [AcceptEv.conn true true true]).1,
        (dir_part {} c6fs [AcceptEv.conn true true true]).2.1,
        (dir_part {} c6fs [AcceptEv.conn true true true]).2.2) ∧
    (parse_test_cases {} c6fs [AcceptEv.conn true true true]).1.count
        (Out.zip_open "testcases.zip") = 1 :=
  c6_corrupt_zip_fallback {} c6fs [AcceptEv.conn true true true] "testcases.zip"
    (by decide) (by decide) (by decide)

/-- C4 counterexample: with `-file foo.bin` holding bytes `[88, 89]` and two
connections on offer, only the first is served (receiving exactly those
bytes); the default response never appears because `serve_forever` is not
entered when `single_file` is set. -/
theorem c4_counterexample :
    run_server c4cfg c4fs
        [AcceptEv.conn true true true, AcceptEv.conn true true true] =
      [Out.sent 0 [88, 89]] ∧
    Out.sent_data default_response ∉
      run_server c4cfg c4fs
        [AcceptEv.conn true true true, AcceptEv.conn true true true] :=
  ⟨by decide, by decide⟩

/-- C4 (amended): with `-file` naming a readable file with bytes `x`, the
first accepted connection receives exactly `x` as test case 0 and the run
then ends: whatever further connection attempts follow, nothing more is
served (the default-response loop is skipped when `single_file` is set). -/
theorem c4_single_file :
    ∀ (cfg : Config) (fs : FS) (f : String) (x : List Nat)
      (rest : List AcceptEv),
      cfg.single_file = some f → f ≠ "" → fs.files f = some x →
      run_server cfg fs (AcceptEv.conn true true true :: rest) =
        [Out.sent 0 x] := by
  intro cfg fs f x rest h1 h2 h3
  have ht : truthy (some f) = true := by
    simp only [truthy, bne_iff_ne, ne_eq]
    exact h2
  simp [run_server, h1, ht, parse_single_file, h3, inject]

/-- C4 witness: the amended single-file behaviour on a concrete run. -/
theorem c4_single_file_witness :
    run_server c4cfg c4fs
        [AcceptEv.conn true true true, AcceptEv.conn true true true] =
      [Out.sent 0 [88, 89]] :=
  c4_single_file c4cfg c4fs "foo.bin" [88, 89] [AcceptEv.conn true true true]
    (by decide) (by decide) (by decide)

/-- C8: every per-connection failure — accept error, recv error, send error,
close error — produces a log entry and the loop goes on, during default
serving and during injection alike: `serve_forever` continues with the
remaining events; in `inject` a recv failure is logged and the loop keeps
waiting on the remaining events, while a send or close failure is logged and
the injection loop continues with the next test case; only a cancellation
event terminates either loop. -/
theorem c8_per_connection_errors :
    (∀ (r : List AcceptEv),
      serve_forever (AcceptEv.accept_err :: r) =
        Out.log_loop_err :: serve_forever r) ∧
    (∀ (r : List AcceptEv) (s c : Bool),
      serve_forever (AcceptEv.conn false s c :: r) =
        Out.log_recv_err :: serve_forever r) ∧
    (∀ (r : List AcceptEv),
      serve_forever (AcceptEv.conn true false true :: r) =
        Out.log_send_err :: serve_forever r) ∧
    (∀ (r : List AcceptEv),
      serve_forever (AcceptEv.conn true true false :: r) =
        Out.sent_data default_response :: Out.log_close_err :: serve_forever r) ∧
    (∀ (r : List AcceptEv), serve_forever (AcceptEv.cancel :: r) = [Out.shutdown]) ∧
    (∀ (i : Int) (d : List Nat) (s : Bool) (rest : List AcceptEv),
      inject i d (AcceptEv.conn false s true :: rest) =
        (Out.log_recv_err :: (inject i d rest).1, (inject i d rest).2.1,
          (inject i d rest).2.2)) ∧
    (∀ (i : Int) (d : List Nat) (rest : List AcceptEv),
      inject i d (AcceptEv.conn true true false :: rest) =
        ([Out.sent i d, Out.log_close_err], rest, InjStop.returned)) ∧
    (∀ (i : Int) (d : List Nat) (tcs : List (Int × List Nat))
        (evs : List AcceptEv),
      inject_seq ((i, d) :: tcs) (AcceptEv.conn true true false :: evs) =
        (Out.sent i d :: Out.log_close_err :: (inject_seq tcs evs).1,
          (inject_seq tcs evs).2.1, (inject_seq tcs evs).2.2)) ∧
    (∀ (i : Int) (d : List Nat) (tcs : List (Int × List Nat))
        (evs : List AcceptEv),
      inject_seq ((i, d) :: tcs) (AcceptEv.conn true false true :: evs) =
        (Out.log_send_err :: (inject_seq tcs evs).1, (inject_seq tcs evs).2.1,
          (inject_seq tcs evs).2.2)) ∧
    (∀ (i : Int) (d : List Nat) (tcs : List (Int × List Nat))
        (evs : List AcceptEv),
      inject_seq ((i, d) :: tcs) (AcceptEv.accept_err :: evs) =
        (Out.log_loop_err :: (inject_seq tcs evs).1, (inject_seq tcs evs).2.1,
          (inject_seq tcs evs).2.2)) ∧
    (∀ (i : Int) (d : List Nat) (tcs : List (Int × List Nat))
        (evs : List AcceptEv),
      inject_seq ((i, d) :: tcs) (AcceptEv.cancel :: evs) =
        ([Out.shutdown], evs, false)) :=
  ⟨fun _ => rfl, fun _ _ _ => rfl, fun _ => rfl, fun _ => rfl, fun _ => rfl,
    fun _ _ _ _ => rfl, fun _ _ _ => rfl, fun _ _ _ _ => rfl,
    fun _ _ _ _ => rfl, fun _ _ _ _ => rfl, fun _ _ _ _ => rfl⟩

/-- C10: within one injection, a recv failure closes that connection and
keeps waiting — the same payload is delivered to a later connection, so the
test case is not consumed — whereas a non-timeout accept failure makes
`inject` return at once without sending, so that test case is skipped. -/
theorem c10_inject_asymmetry :
    (∀ (i : Int) (d : List Nat) (s : Bool) (rest : List AcceptEv),
      inject i d (AcceptEv.conn false s true :: rest) =
        (Out.log_recv_err :: (inject i d rest).1, (inject i d rest).2.1,
          (inject i d rest).2.2)) ∧
    (∀ (i : Int) (d : List Nat) (s : Bool) (rest : List AcceptEv),
      inject i d
          (AcceptEv.conn false s true :: AcceptEv.conn true true true :: rest) =
        ([Out.log_recv_err, Out.sent i d], rest, InjStop.returned)) ∧
    (∀ (i : Int) (d : List Nat) (rest : List AcceptEv),
      inject i d (AcceptEv.accept_err :: rest) =
        ([Out.log_loop_err], rest, InjStop.returned)) ∧
    (∀ (i : Int) (d : List Nat) (rest : List AcceptEv),
      Out.sent i d ∉ (inject i d (AcceptEv.accept_err :: rest)).1) ∧
    (∀ (i : Int) (d : List Nat) (tcs : List (Int × List Nat)) (a : Bool)
        (evs : List AcceptEv),
      inject_seq ((i, d) :: tcs)
          (AcceptEv.conn false a true :: AcceptEv.conn true true true :: evs) =
        (Out.log_recv_err :: Out.sent i d :: (inject_seq tcs evs).1,
          (inject_seq tcs evs).2.1, (inject_seq tcs evs).2.2)) := by
  refine ⟨fun _ _ _ _ => rfl, fun _ _ _ _ => rfl, fun _ _ _ => rfl, ?_,
    fun _ _ _ _ _ => rfl⟩
  intro i d rest
  simp [inject]

end HRTS
